import Mathlib

/-!
Shallow embedding of `src/wifi_server_reactor.py` (PiCar-X Wi-Fi control
server, a single-threaded selector reactor).  Python strings are modelled
as `List Char`, byte strings as `List Nat`, floats as `ℚ`, and the
side-effecting hardware / socket layer as explicit event traces.
-/

namespace PicarX

/-- The exact whitespace set of CPython's `str.isspace`, which is the set
`str.strip()` (no argument) strips: all 29 code points CPython treats as
whitespace — the ASCII controls 09–0D and 1C–1F, space, NEL U+0085,
NBSP U+00A0, and the Unicode space separators. -/
def pyIsSpace (c : Char) : Bool :=
  [0x09, 0x0A, 0x0B, 0x0C, 0x0D, 0x1C, 0x1D, 0x1E, 0x1F, 0x20, 0x85, 0xA0,
   0x1680, 0x2000, 0x2001, 0x2002, 0x2003, 0x2004, 0x2005, 0x2006, 0x2007,
   0x2008, 0x2009, 0x200A, 0x2028, 0x2029, 0x202F, 0x205F,
   0x3000].contains c.toNat

/-- Python `s.rstrip()`: drop trailing whitespace. -/
def pyRstrip (l : List Char) : List Char :=
  (l.reverse.dropWhile pyIsSpace).reverse

/-- Python `s.lstrip()`: drop leading whitespace. -/
def pyLstrip (l : List Char) : List Char :=
  l.dropWhile pyIsSpace

/-- Python `s.strip()`: drop whitespace (per `pyIsSpace`, the exact
CPython set) at both ends. -/
def pyStrip (l : List Char) : List Char :=
  pyLstrip (pyRstrip l)

/-- One character of Python's `str.lower()`.  Exact on every character
whose lowercase mapping contains an ASCII character: ASCII `A`–`Z`,
U+212A KELVIN SIGN (→ `k`), and U+0130 LATIN CAPITAL LETTER I WITH DOT
ABOVE (→ `i` followed by U+0307, the sole multi-character mapping of
`str.lower()`).  Every other character has an entirely non-ASCII
lowercase mapping and is kept unchanged here, which cannot change
whether a normalized token equals one of the all-ASCII recognized
commands (the mapped form would be non-ASCII either way). -/
def pyLowerChar (c : Char) : List Char :=
  if 'A' ≤ c ∧ c ≤ 'Z' then [Char.ofNat (c.toNat + 32)]
  else if c.toNat = 0x212A then ['k']
  else if c.toNat = 0x130 then ['i', Char.ofNat 0x307]
  else [c]

/-- Python `s.lower()`: concatenation of the per-character lowercase
mappings. -/
def pyLower (l : List Char) : List Char :=
  (l.map pyLowerChar).flatten

/-- Python `s.replace("\r\n", "\n")`: left-to-right non-overlapping scan,
as used in `service` before buffering a received chunk. -/
def replaceCRLF : List Char → List Char
  | [] => []
  | [c] => [c]
  | c₁ :: c₂ :: rest =>
    if c₁ = '\r' ∧ c₂ = '\n' then '\n' :: replaceCRLF rest
    else c₁ :: replaceCRLF (c₂ :: rest)

/-- The line-extraction of `service`'s `while True` loop
(`nl = buf.find("\n"); line = buf[:nl]; buf = buf[nl+1:]`), run to
exhaustion: the list of complete newline-terminated line bodies, in order,
together with the unterminated remainder that stays in `buf_in`. -/
def splitNl : List Char → List (List Char) × List Char
  | [] => ([], [])
  | c :: rest =>
    if c = '\n' then
      ([] :: (splitNl rest).1, (splitNl rest).2)
    else
      match splitNl rest with
      | ([], rem) => ([], c :: rem)
      | (l :: ls, rem) => ((c :: l) :: ls, rem)

/-- A partially decoded UTF-8 sequence: how many continuation bytes are
still needed, the code point accumulated so far, and the admissible range
for the next continuation byte (the first continuation of a 3- or 4-byte
sequence has a restricted range that rules out overlong encodings and
surrogates, as in CPython's decoder). -/
structure Utf8Pending where
  need : Nat
  acc : Nat
  lo : Nat
  hi : Nat
deriving DecidableEq, Repr

/-- Classify a byte as the start of a UTF-8 sequence: ASCII decodes at
once, an invalid lead byte (0x80–0xC1, 0xF5–0xFF) is dropped (`ignore`),
and a valid multi-byte lead opens a pending sequence. -/
def utf8Start (b : Nat) : Option Utf8Pending × List Char :=
  if b < 0x80 then (none, [Char.ofNat b])
  else if b < 0xC2 then (none, [])
  else if b < 0xE0 then (some ⟨1, b - 0xC0, 0x80, 0xC0⟩, [])
  else if b < 0xF0 then
    (some ⟨2, b - 0xE0, if b = 0xE0 then 0xA0 else 0x80,
           if b = 0xED then 0xA0 else 0xC0⟩, [])
  else if b < 0xF5 then
    (some ⟨3, b - 0xF0, if b = 0xF0 then 0x90 else 0x80,
           if b = 0xF4 then 0x90 else 0xC0⟩, [])
  else (none, [])

/-- Feed one byte to the decoder.  An in-range continuation byte extends
or completes the pending sequence; an out-of-range byte makes the pending
bytes a maximal invalid subsequence (dropped by `ignore`) and is itself
reprocessed as a fresh start, exactly as CPython resumes at the offending
byte. -/
def utf8Step (s : Option Utf8Pending) (b : Nat) : Option Utf8Pending × List Char :=
  match s with
  | none => utf8Start b
  | some p =>
    if p.lo ≤ b ∧ b < p.hi then
      let acc := p.acc * 64 + (b - 0x80)
      if p.need = 1 then (none, [Char.ofNat acc])
      else (some ⟨p.need - 1, acc, 0x80, 0xC0⟩, [])
    else utf8Start b

/-- Run the decoder over a byte list; a sequence truncated by the end of
the input is dropped (`ignore`). -/
def utf8Run : Option Utf8Pending → List Nat → List Char
  | _, [] => []
  | s, b :: rest =>
    let p := utf8Step s b
    p.2 ++ utf8Run p.1 rest

/-- `chunk.decode("utf-8", errors="ignore")`: UTF-8 decoding where each
maximal invalid subsequence (invalid lead byte, continuation byte out of
range, or sequence truncated by end of input) is silently dropped, as
CPython's `ignore` error handler does. -/
def decodeIgnore (bs : List Nat) : List Char :=
  utf8Run none bs

/-- Command-token constant: the characters of `"forward"`. -/
def cFORWARD : List Char := ("forward").toList

/-- Command-token constant: the characters of `"back"`. -/
def cBACK : List Char := ("back").toList

/-- Command-token constant: the characters of `"stop"`. -/
def cSTOP : List Char := ("stop").toList

/-- Command-token constant: the characters of `"left"`. -/
def cLEFT : List Char := ("left").toList

/-- Command-token constant: the characters of `"right"`. -/
def cRIGHT : List Char := ("right").toList

/-- Command-token constant: the characters of `"center"`. -/
def cCENTER : List Char := ("center").toList

/-- Command-token constant: the characters of `"resetodo"`, the odometer
reset token actually recognized by `apply_cmd`. -/
def cRESETODO : List Char := ("resetodo").toList

/-- The characters of `"reset-odometer"`, the token named by the spec. -/
def cRESET_ODOMETER : List Char := ("reset-odometer").toList

/-- `CRUISE_SPEED = 80`. -/
def CRUISE_SPEED : Int := 80

/-- `DIR_MAX_ANGLE = 22` degrees. -/
def DIR_MAX_ANGLE : Int := 22

/-- One call into the `picarx` hardware API. -/
inductive HwCall where
  | forward (speed : Int)
  | backward (speed : Int)
  | halt
  | setDirServoAngle (angle : Int)
deriving DecidableEq, Repr

/-- `set_motion(motion)`: the `px` flag models whether the Picarx import
succeeded (`px = None` otherwise, every call a no-op).  Both the `"stop"`
token and any unknown motion string call `px.stop()`. -/
def set_motion (px : Bool) (motion : List Char) : List HwCall :=
  if px = false then [] else
  let m := pyLower motion
  if m = cFORWARD then [HwCall.forward CRUISE_SPEED]
  else if m = cBACK then [HwCall.backward CRUISE_SPEED]
  else [HwCall.halt]

/-- `set_steer(direction)`: steering servo calls; unknown directions do
nothing. -/
def set_steer (px : Bool) (direction : List Char) : List HwCall :=
  if px = false then [] else
  let d := pyLower direction
  if d = cLEFT then [HwCall.setDirServoAngle (-DIR_MAX_ANGLE)]
  else if d = cRIGHT then [HwCall.setDirServoAngle DIR_MAX_ANGLE]
  else if d = cCENTER then [HwCall.setDirServoAngle 0]
  else []

/-- `hw_safe_stop()`: `set_motion("stop"); set_steer("center")` with any
exception swallowed. -/
def hw_safe_stop (px : Bool) : List HwCall :=
  set_motion px cSTOP ++ set_steer px cCENTER

/-- The nested `wifi_return_value` dict of the telemetry state. -/
structure WifiRet where
  battery : Int
  moving : List Char
  steer : List Char
deriving DecidableEq, Repr

/-- The `_telem` dict: the process-wide telemetry state. -/
structure Telem where
  direction : List Char
  speed_mps : ℚ
  distance_m : ℚ
  tempC : ℚ
  wifi_return_value : WifiRet
deriving DecidableEq, Repr

/-- A diagnostic print (`[WARN] unknown cmd: ...`). -/
inductive Diag where
  | unknownCmd (c : List Char)
deriving DecidableEq, Repr

/-- `apply_cmd(cmd)`: normalizes the token with `strip().lower()` and
applies it; returns the updated telemetry, the hardware calls made, and
the diagnostics printed.  Mirrors the `if/elif` chain of the source. -/
def apply_cmd (px : Bool) (cmd : List Char) (t : Telem) :
    Telem × List HwCall × List Diag :=
  let c := pyLower (pyStrip cmd)
  if c = cFORWARD then
    ({t with direction := cFORWARD,
             wifi_return_value := {t.wifi_return_value with moving := cFORWARD},
             speed_mps := 55/100},
     set_motion px cFORWARD, [])
  else if c = cBACK then
    ({t with direction := cBACK,
             wifi_return_value := {t.wifi_return_value with moving := cBACK},
             speed_mps := 55/100},
     set_motion px cBACK, [])
  else if c = cSTOP then
    ({t with direction := cSTOP,
             wifi_return_value := {t.wifi_return_value with moving := cSTOP},
             speed_mps := 0},
     set_motion px cSTOP, [])
  else if c = cLEFT then
    ({t with wifi_return_value := {t.wifi_return_value with steer := cLEFT}},
     set_steer px cLEFT, [])
  else if c = cRIGHT then
    ({t with wifi_return_value := {t.wifi_return_value with steer := cRIGHT}},
     set_steer px cRIGHT, [])
  else if c = cCENTER then
    ({t with wifi_return_value := {t.wifi_return_value with steer := cCENTER}},
     set_steer px cCENTER, [])
  else if c = cRESETODO then
    ({t with distance_m := 0}, [], [])
  else
    (t, [], [Diag.unknownCmd c])

/-- The set of command tokens `apply_cmd` recognizes. -/
def recognized : List (List Char) :=
  [cFORWARD, cBACK, cSTOP, cLEFT, cRIGHT, cCENTER, cRESETODO]

/-- Round half to even, Python's `round` tie-breaking. -/
def roundHalfEven (q : ℚ) : Int :=
  let f := ⌊q⌋
  if q - f < 1/2 then f
  else if (1 : ℚ)/2 < q - f then f + 1
  else if 2 ∣ f then f else f + 1

/-- Python `round(x, 2)`. -/
def round2 (q : ℚ) : ℚ :=
  (roundHalfEven (100 * q) : ℚ) / 100

/-- The globals mutated by `telemetry_tick`: `_telem` and
`_last_telem_time`. -/
structure Glob where
  telem : Telem
  last_telem_time : ℚ
deriving DecidableEq, Repr

/-- `telemetry_tick()`: advance the very basic odometer by
`speed * dt` seconds of wall clock and resample the CPU temperature
(`temp` is the value `_cpu_temp_c()` returns, `0.0` on failure). -/
def telemetry_tick (now temp : ℚ) (g : Glob) : Glob :=
  let dt := now - g.last_telem_time
  { telem := {g.telem with
      distance_m := round2 (g.telem.distance_m + g.telem.speed_mps * dt),
      tempC := temp},
    last_telem_time := now }

/-- Per-connection state (`ConnState.__init__`): the inbound line buffer,
the time of the last telemetry push, and the closed flag.  The socket
itself, its non-blocking mode and the keepalive option live outside the
model. -/
structure ConnState where
  buf_in : List Char
  last_push : ℚ
  closed : Bool
deriving DecidableEq, Repr

/-- A freshly accepted connection: empty buffer, `last_push = 0.0`,
not closed. -/
def ConnState.init : ConnState :=
  { buf_in := [], last_push := 0, closed := false }

/-- `close_conn(state)`: a no-op on an already-closed connection,
otherwise mark closed, unregister from the selector and close the socket
(both exception-swallowed, represented by the `closed` flag) and call
`hw_safe_stop()`. -/
def close_conn (px : Bool) (st : ConnState) : ConnState × List HwCall :=
  if st.closed then (st, [])
  else ({st with closed := true}, hw_safe_stop px)

/-- Observable events of one reactor step: socket writes, dispatches,
hardware calls, diagnostics, and connection closure. -/
inductive Ev where
  | ackSent (cmd : List Char)
  | ackErr (cmd : List Char)
  | dispatched (cmd : List Char)
  | hw (c : HwCall)
  | warn (d : Diag)
  | telemSent
  | sendErr
  | connClosed
deriving DecidableEq, Repr

/-- The per-line body of `service`'s drain loop, run over the complete
lines extracted from the buffer: skip blank lines, attempt the
`ACK:{cmd}` write (`aok i` tells whether the `i`-th `sendall` of this
call succeeds; a failure only prints `[ACK ERR]`), then `apply_cmd`. -/
def procLines (px : Bool) (aok : Nat → Bool) (i : Nat)
    (ls : List (List Char)) (t : Telem) : Telem × List Ev :=
  match ls with
  | [] => (t, [])
  | line :: rest =>
    let cmd := pyStrip line
    if cmd.isEmpty then procLines px aok i rest t
    else
      let ack := if aok i then Ev.ackSent cmd else Ev.ackErr cmd
      let r := apply_cmd px cmd t
      let q := procLines px aok (i + 1) rest r.1
      (q.1, ack :: Ev.dispatched cmd ::
        (r.2.1.map Ev.hw ++ r.2.2.map Ev.warn ++ q.2))

/-- Outcome of the single `recv(4096)` a readable event triggers.
`bytes []` is Python's `b""`, the peer-closed signal. -/
inductive RecvResult where
  | bytes (bs : List Nat)
  | wouldBlock
  | err
deriving DecidableEq, Repr

/-- `service(state)`: one bounded read.  `BlockingIOError`/
`InterruptedError` are a no-op; zero bytes raise, and any other failure is
caught by the outer handler, which prints and calls `close_conn`.  On
data, decode, normalize CR-LF, append to the buffer, and drain every
complete line through `procLines`. -/
def service (px : Bool) (aok : Nat → Bool) (r : RecvResult)
    (st : ConnState) (t : Telem) : ConnState × Telem × List Ev :=
  match r with
  | .wouldBlock => (st, t, [])
  | .err =>
    let p := close_conn px st
    (p.1, t, Ev.connClosed :: p.2.map Ev.hw)
  | .bytes bs =>
    if bs.isEmpty then
      let p := close_conn px st
      (p.1, t, Ev.connClosed :: p.2.map Ev.hw)
    else
      let buf := st.buf_in ++ replaceCRLF (decodeIgnore bs)
      let q := splitNl buf
      let pr := procLines px aok 0 q.1 t
      ({st with buf_in := q.2}, pr.1, pr.2)

/-- `push_telem_if_due(state, hz)`: if at least `1/hz` elapsed since this
connection's last push, serialize `telemetry_tick()` and send it;
`last_push` advances only on a successful send, and a send failure prints
`[SEND ERR]` and tears the connection down.  Note the tick (and its
odometer update) happens before the send is attempted. -/
def push_telem_if_due (px : Bool) (hz now temp : ℚ) (sendOk : Bool)
    (st : ConnState) (g : Glob) : ConnState × Glob × List Ev :=
  if 1 / hz ≤ now - st.last_push then
    let g' := telemetry_tick now temp g
    if sendOk then ({st with last_push := now}, g', [Ev.telemSent])
    else
      let p := close_conn px st
      (p.1, g', Ev.sendErr :: p.2.map Ev.hw)
  else (st, g, [])

/-- The reactor's registered-socket map plus the telemetry globals:
everything the `main` loop owns. -/
structure ServerState where
  conns : List ConnState
  glob : Glob
deriving DecidableEq, Repr

/-- A ready descriptor reported by `sel.select`: the listening socket
(accept one pending connection) or the `i`-th registered connection with
the outcome of its `recv`. -/
inductive ReadyEv where
  | accept
  | readable (i : Nat) (r : RecvResult)
deriving DecidableEq, Repr

/-- The `for key, _ in sel.select(...)` phase of one heartbeat: handle
each ready descriptor in report order.  `aok j` is the ACK-write oracle
for the `j`-th event's `service` call. -/
def processReady (px : Bool) (aok : Nat → Nat → Bool) (j : Nat)
    (evs : List ReadyEv) (s : ServerState) : ServerState × List Ev :=
  match evs with
  | [] => (s, [])
  | ReadyEv.accept :: rest =>
    processReady px aok (j + 1) rest
      {s with conns := s.conns ++ [ConnState.init]}
  | ReadyEv.readable i r :: rest =>
    match s.conns[i]? with
    | none => processReady px aok (j + 1) rest s
    | some c =>
      let sv := service px (aok j) r c s.glob.telem
      let s' : ServerState :=
        { conns := s.conns.set i sv.1,
          glob := {s.glob with telem := sv.2.1} }
      let q := processReady px aok (j + 1) rest s'
      (q.1, sv.2.2 ++ q.2)

/-- The `for key in list(sel.get_map().values())` phase of one heartbeat:
`push_telem_if_due` on every registered (non-closed) connection.
`sendOk i` is the telemetry-write oracle for the `i`-th connection. -/
def pushPhase (px : Bool) (hz now temp : ℚ) (sendOk : Nat → Bool) (i : Nat)
    (conns : List ConnState) (g : Glob) : List ConnState × Glob × List Ev :=
  match conns with
  | [] => ([], g, [])
  | c :: rest =>
    if c.closed then
      let q := pushPhase px hz now temp sendOk (i + 1) rest g
      (c :: q.1, q.2.1, q.2.2)
    else
      let p := push_telem_if_due px hz now temp (sendOk i) c g
      let q := pushPhase px hz now temp sendOk (i + 1) rest p.2.1
      (p.1 :: q.1, q.2.1, p.2.2 ++ q.2.2)

/-- One iteration of `main`'s `while True` loop: process the ready
descriptors, then run the telemetry push over all connections.  There is
no further periodic work in the loop body. -/
def heartbeatIter (px : Bool) (aok : Nat → Nat → Bool) (sendOk : Nat → Bool)
    (hz now temp : ℚ) (revs : List ReadyEv) (s : ServerState) :
    ServerState × List Ev :=
  let p := processReady px aok 0 revs s
  let q := pushPhase px hz now temp sendOk 0 p.1.conns p.1.glob
  (⟨q.1, q.2.1⟩, p.2 ++ q.2.2)

/-- `n` heartbeats during which `sel.select` reports nothing ready (no
client connected, no pending accept); `nows k` is the wall clock at the
`k`-th iteration's push phase. -/
def iterIdle (px : Bool) (hz temp : ℚ) (nows : Nat → ℚ) :
    Nat → ServerState → ServerState × List Ev
  | 0, s => (s, [])
  | n + 1, s =>
    let p := heartbeatIter px (fun _ _ => true) (fun _ => true) hz (nows n) temp [] s
    let q := iterIdle px hz temp nows n p.1
    (q.1, p.2 ++ q.2)

/-- Feed a sequence of recv chunks, one `service` call each, through one
connection; `aok j i` is the ACK oracle of the `j`-th call. -/
def serviceChunks (px : Bool) (aok : Nat → Nat → Bool) (cs : List (List Nat))
    (st : ConnState) (t : Telem) : ConnState × Telem × List Ev :=
  match cs with
  | [] => (st, t, [])
  | c :: rest =>
    let p := service px (aok 0) (RecvResult.bytes c) st t
    let q := serviceChunks px (fun j => aok (j + 1)) rest p.1 p.2.1
    (q.1, q.2.1, p.2.2 ++ q.2.2)

/-- The commands a trace dispatched, in order. -/
def dispatchedOf (evs : List Ev) : List (List Char) :=
  evs.filterMap fun e =>
    match e with
    | Ev.dispatched c => some c
    | _ => none

/-- The commands the drain loop extracts from a buffer: the stripped,
non-blank complete lines. -/
def cmdsOf (buf : List Char) : List (List Char) :=
  ((splitNl buf).1.map pyStrip).filter (fun c => !c.isEmpty)

/-- A sample telemetry state: the robot is driving forward with 5 m on the
odometer. -/
def t5 : Telem :=
  { direction := cFORWARD, speed_mps := 55/100, distance_m := 5, tempC := 40,
    wifi_return_value := ⟨80, cFORWARD, cCENTER⟩ }

/-- The UTF-8 bytes of `"forwardé\n"`. -/
def exBytes : List Nat := [102, 111, 114, 119, 97, 114, 100, 195, 169, 10]

/-- `exBytes` split between the two bytes of `é`. -/
def exSplit : List (List Nat) := [[102, 111, 114, 119, 97, 114, 100, 195], [169, 10]]

/-! ### Theorems -/

/-- `C3` counterexample: dispatching the spec's token `"reset-odometer"`
on a state with 5 m accumulated leaves the odometer at 5 — the token the
code recognizes is `"resetodo"`, so `"reset-odometer"` falls through to
the unknown-command branch. -/
theorem resetOdometerTokenIgnored :
    (apply_cmd true cRESET_ODOMETER t5).1.distance_m ≠ 0 := by
  decide

/-- `C3` (amended): dispatching the token the code actually recognizes,
`"resetodo"`, sets the accumulated distance to 0 and leaves the direction
and speed fields unchanged (and makes no actuator call). -/
theorem resetodoResetsDistanceOnly (px : Bool) (t : Telem) :
    (apply_cmd px cRESETODO t).1.distance_m = 0 ∧
    (apply_cmd px cRESETODO t).1.direction = t.direction ∧
    (apply_cmd px cRESETODO t).1.speed_mps = t.speed_mps ∧
    (apply_cmd px cRESETODO t).2.1 = [] := by
  simp [apply_cmd, show pyLower (pyStrip cRESETODO) = cRESETODO from by decide,
    show ¬cRESETODO = cFORWARD from by decide,
    show ¬cRESETODO = cBACK from by decide,
    show ¬cRESETODO = cSTOP from by decide,
    show ¬cRESETODO = cLEFT from by decide,
    show ¬cRESETODO = cRIGHT from by decide,
    show ¬cRESETODO = cCENTER from by decide]

/-- `C4`: teardown of a not-yet-closed connection performs exactly the
calls of `hw_safe_stop` and marks the connection closed; a second
teardown call on the now-closed connection returns the state unchanged
and performs no hardware call at all. -/
theorem closeConnSafeStopsAndIsIdempotent (px : Bool) (st : ConnState)
    (h : st.closed = false) :
    (close_conn px st).2 = hw_safe_stop px ∧
    (close_conn px st).1 = {st with closed := true} ∧
    close_conn px (close_conn px st).1 = ((close_conn px st).1, []) := by
  simp [close_conn, h]

/-- `C4` witness: the teardown contract evaluated on a fresh connection
with the hardware attached. -/
theorem closeConnSafeStopsAndIsIdempotentWitness :
    (close_conn true ConnState.init).2 = hw_safe_stop true ∧
    (close_conn true ConnState.init).1 = {ConnState.init with closed := true} ∧
    close_conn true (close_conn true ConnState.init).1 =
      ((close_conn true ConnState.init).1, []) :=
  closeConnSafeStopsAndIsIdempotent true ConnState.init (by decide)

/-- `C5`: a command whose normalized token is outside the recognized set
leaves the telemetry state untouched, makes no actuator call, and its
only effect is the unknown-command diagnostic. -/
theorem unknownCmdIsPureDiagnostic (px : Bool) (t : Telem) (cmd : List Char)
    (h : pyLower (pyStrip cmd) ∉ recognized) :
    apply_cmd px cmd t = (t, [], [Diag.unknownCmd (pyLower (pyStrip cmd))]) := by
  simp only [recognized, List.mem_cons, List.not_mem_nil, or_false, not_or] at h
  obtain ⟨h1, h2, h3, h4, h5, h6, h7⟩ := h
  simp only [apply_cmd, if_neg h1, if_neg h2, if_neg h3, if_neg h4, if_neg h5,
    if_neg h6, if_neg h7]

/-- `C5` witness: the command `"fly"` is unrecognized and has no effect
beyond the diagnostic. -/
theorem unknownCmdIsPureDiagnosticWitness :
    apply_cmd true (("fly").toList) t5 =
      (t5, [], [Diag.unknownCmd (pyLower (pyStrip (("fly").toList)))]) :=
  unknownCmdIsPureDiagnostic true t5 (("fly").toList) (by decide)

/-- A heartbeat with no ready descriptors and no registered connection is
a pure no-op: nothing in the loop body reads a last-command timestamp or
forces a stop. -/
theorem heartbeatIter_idle (px : Bool) (aok : Nat → Nat → Bool)
    (sendOk : Nat → Bool) (hz now temp : ℚ) (g : Glob) :
    heartbeatIter px aok sendOk hz now temp [] ⟨[], g⟩ = (⟨[], g⟩, []) :=
  rfl

/-- `C1`: refuted by the code — `main`'s loop body contains no failsafe
check at all (there is no last-recognized-command timestamp in the server
state, because the source maintains none).  With zero active connections,
any number of heartbeats at arbitrary wall-clock times leave the
telemetry direction exactly as it was and make no actuator call, so a
non-"stop" direction never becomes "stop", no matter how much time
elapses since the last recognized command. -/
theorem heartbeatNeverForcesStop (px : Bool) (hz temp : ℚ) (nows : Nat → ℚ)
    (n : Nat) (g : Glob) :
    (iterIdle px hz temp nows n ⟨[], g⟩).1.glob.telem.direction =
      g.telem.direction ∧
    (iterIdle px hz temp nows n ⟨[], g⟩).2 = [] := by
  have key : ∀ m, iterIdle px hz temp nows m ⟨[], g⟩ = (⟨[], g⟩, []) := by
    intro m
    induction m with
    | zero => rfl
    | succ k ih => simp [iterIdle, heartbeatIter_idle, ih]
  rw [key n]
  exact ⟨rfl, rfl⟩

/-- `C10`: a fresh connection has `last_push = 0.0`, so as soon as the
wall clock is at least one push period (true from the epoch onward for
any positive rate) the very first `push_telem_if_due` after accept finds
the push due, sends one telemetry line, and stamps `last_push`. -/
theorem firstPushAlwaysDue (px : Bool) (hz now temp : ℚ) (g : Glob)
    (h : 1 / hz ≤ now) :
    ConnState.init.last_push = 0 ∧
    (push_telem_if_due px hz now temp true ConnState.init g).1.last_push = now ∧
    (push_telem_if_due px hz now temp true ConnState.init g).2.2 = [Ev.telemSent] := by
  rw [one_div] at h
  refine ⟨rfl, ?_, ?_⟩ <;>
    simp [push_telem_if_due, ConnState.init, h]

/-- `C10` witness: at rate 3 Hz and wall clock 1 s the first push fires. -/
theorem firstPushAlwaysDueWitness :
    ConnState.init.last_push = 0 ∧
    (push_telem_if_due true 3 1 40 true ConnState.init ⟨t5, 0⟩).1.last_push = 1 ∧
    (push_telem_if_due true 3 1 40 true ConnState.init ⟨t5, 0⟩).2.2 = [Ev.telemSent] :=
  firstPushAlwaysDue true 3 1 40 ⟨t5, 0⟩ (by norm_num)

/-- `C8`: dispatch looks only at `cmd.strip().lower()` (so it trims
surrounding whitespace and is case-insensitive), and on the motion
tokens: `forward` sets direction `"forward"` with the positive nominal
speed 0.55 and drives the motors forward at the cruise magnitude; `back`
sets direction `"back"` with the same positive nominal speed and drives
backward; `stop` sets direction `"stop"` with speed 0 and halts the
motors. -/
theorem motionTokensContract (px : Bool) (t : Telem) (cmd cmd₂ : List Char) :
    (pyLower (pyStrip cmd) = pyLower (pyStrip cmd₂) →
      apply_cmd px cmd t = apply_cmd px cmd₂ t) ∧
    (pyLower (pyStrip cmd) = cFORWARD →
      (apply_cmd px cmd t).1.direction = cFORWARD ∧
      (apply_cmd px cmd t).1.speed_mps = 55/100 ∧
      0 < (apply_cmd px cmd t).1.speed_mps ∧
      (px = true → (apply_cmd px cmd t).2.1 = [HwCall.forward CRUISE_SPEED])) ∧
    (pyLower (pyStrip cmd) = cBACK →
      (apply_cmd px cmd t).1.direction = cBACK ∧
      (apply_cmd px cmd t).1.speed_mps = 55/100 ∧
      0 < (apply_cmd px cmd t).1.speed_mps ∧
      (px = true → (apply_cmd px cmd t).2.1 = [HwCall.backward CRUISE_SPEED])) ∧
    (pyLower (pyStrip cmd) = cSTOP →
      (apply_cmd px cmd t).1.direction = cSTOP ∧
      (apply_cmd px cmd t).1.speed_mps = 0 ∧
      (px = true → (apply_cmd px cmd t).2.1 = [HwCall.halt])) := by
  refine ⟨fun h => by simp only [apply_cmd, h], ?_, ?_, ?_⟩
  · intro h
    refine ⟨?_, ?_, ?_, ?_⟩ <;>
      simp [apply_cmd, h, set_motion, show pyLower cFORWARD = cFORWARD from by decide]
  · intro h
    refine ⟨?_, ?_, ?_, ?_⟩ <;>
      simp [apply_cmd, h, set_motion, show ¬cBACK = cFORWARD from by decide,
        show pyLower cBACK = cBACK from by decide]
  · intro h
    refine ⟨?_, ?_, ?_⟩ <;>
      simp [apply_cmd, h, set_motion, show ¬cSTOP = cFORWARD from by decide,
        show ¬cSTOP = cBACK from by decide,
        show pyLower cSTOP = cSTOP from by decide]

/-- `C8` witness: `" FoRWard "` trims and case-folds to `forward`, equals
the dispatch of the bare token, and produces the forward contract. -/
theorem motionTokensContractWitness :
    (apply_cmd true ((" FoRWard ").toList) t5 = apply_cmd true cFORWARD t5) ∧
    (apply_cmd true ((" FoRWard ").toList) t5).1.direction = cFORWARD ∧
    (apply_cmd true ((" FoRWard ").toList) t5).1.speed_mps = 55/100 ∧
    (apply_cmd true ((" FoRWard ").toList) t5).2.1 = [HwCall.forward CRUISE_SPEED] := by
  obtain ⟨hcong, hfwd, -, -⟩ :=
    motionTokensContract true t5 ((" FoRWard ").toList) cFORWARD
  obtain ⟨h1, h2, -, h4⟩ := hfwd (by decide)
  exact ⟨hcong (by decide), h1, h2, h4 rfl⟩

/-- `C7` counterexample: a write failure that is not connection-fatal.
The client sends `"stop\n"`, the `ACK:stop` write raises, yet the
connection stays open (no teardown): the handler only prints
`[ACK ERR ...]` and goes on to dispatch. -/
theorem ackWriteFailureIsNotFatal :
    (service true (fun _ => false) (RecvResult.bytes [115, 116, 111, 112, 10])
        ConnState.init t5).1.closed = false ∧
    (service true (fun _ => false) (RecvResult.bytes [115, 116, 111, 112, 10])
        ConnState.init t5).2.2 =
      [Ev.ackErr cSTOP, Ev.dispatched cSTOP, Ev.hw HwCall.halt] := by
  decide

/-- `C7` (amended): only telemetry write failures are connection-fatal —
a due telemetry push whose send fails closes the connection and invokes
the safe stop, while a `service` read pass never tears the connection
down on an ACK write failure, whatever the ACK oracle says. -/
theorem telemetryWriteFailureIsFatal (px : Bool) (hz now temp : ℚ)
    (st : ConnState) (g : Glob) (hopen : st.closed = false)
    (hdue : 1 / hz ≤ now - st.last_push) :
    ((push_telem_if_due px hz now temp false st g).1.closed = true ∧
     (push_telem_if_due px hz now temp false st g).2.2 =
       Ev.sendErr :: (hw_safe_stop px).map Ev.hw) ∧
    (∀ (aok : Nat → Bool) (bs : List Nat) (t : Telem),
      (service px aok (RecvResult.bytes bs) st t).1.closed = st.closed ∨
      bs.isEmpty = true) := by
  rw [one_div] at hdue
  constructor
  · constructor <;> simp [push_telem_if_due, hdue, close_conn, hopen]
  · intro aok bs t
    rcases hbs : bs.isEmpty with _ | _
    · left
      simp [service, hbs]
    · right
      rfl

/-- `C7` witness: the amended contract evaluated on a fresh connection at
3 Hz with the push one second overdue, and a one-byte read. -/
theorem telemetryWriteFailureIsFatalWitness :
    ((push_telem_if_due true 3 1 40 false ConnState.init ⟨t5, 0⟩).1.closed = true ∧
     (push_telem_if_due true 3 1 40 false ConnState.init ⟨t5, 0⟩).2.2 =
       Ev.sendErr :: (hw_safe_stop true).map Ev.hw) ∧
    ((service true (fun _ => true) (RecvResult.bytes [10]) ConnState.init t5).1.closed
        = ConnState.init.closed ∨ ([10] : List Nat).isEmpty = true) := by
  obtain ⟨h1, h2⟩ :=
    telemetryWriteFailureIsFatal true 3 1 40 ConnState.init ⟨t5, 0⟩ (by decide)
      (by norm_num [ConnState.init])
  exact ⟨h1, h2 (fun _ => true) [10] t5⟩

/-- `apply_cmd` touches `distance_m` only in its `resetodo` branch. -/
theorem apply_cmd_distance (px : Bool) (cmd : List Char) (t : Telem)
    (h : pyLower (pyStrip cmd) ≠ cRESETODO) :
    (apply_cmd px cmd t).1.distance_m = t.distance_m := by
  simp only [apply_cmd]
  split_ifs with h1 h2 h3 h4 h5 h6 <;> rfl

/-- The drain loop preserves `distance_m` as long as it dispatches no
`resetodo`. -/
theorem procLines_distance (px : Bool) (aok : Nat → Bool)
    (ls : List (List Char)) : ∀ (i : Nat) (t : Telem),
    (∀ cmd, Ev.dispatched cmd ∈ (procLines px aok i ls t).2 →
      pyLower (pyStrip cmd) ≠ cRESETODO) →
    (procLines px aok i ls t).1.distance_m = t.distance_m := by
  induction ls with
  | nil => intro i t _; rfl
  | cons line rest ih =>
    intro i t h
    by_cases hemp : (pyStrip line).isEmpty
    · rw [show procLines px aok i (line :: rest) t
            = procLines px aok i rest t from by simp [procLines, hemp]] at h ⊢
      exact ih i t h
    · have hexp : procLines px aok i (line :: rest) t =
          ((procLines px aok (i + 1) rest (apply_cmd px (pyStrip line) t).1).1,
           (if aok i then Ev.ackSent (pyStrip line) else Ev.ackErr (pyStrip line)) ::
             Ev.dispatched (pyStrip line) ::
             ((apply_cmd px (pyStrip line) t).2.1.map Ev.hw ++
              (apply_cmd px (pyStrip line) t).2.2.map Ev.warn ++
              (procLines px aok (i + 1) rest (apply_cmd px (pyStrip line) t).1).2)) := by
        simp [procLines, hemp]
      rw [hexp] at h ⊢
      have hline : pyLower (pyStrip (pyStrip line)) ≠ cRESETODO := by
        have := h (pyStrip line) (by simp)
        simpa using this
      have hsub : ∀ cmd,
          Ev.dispatched cmd ∈
            (procLines px aok (i + 1) rest (apply_cmd px (pyStrip line) t).1).2 →
          pyLower (pyStrip cmd) ≠ cRESETODO := by
        intro cmd hmem
        exact h cmd (by simp [hmem])
      calc (procLines px aok (i + 1) rest (apply_cmd px (pyStrip line) t).1).1.distance_m
          = (apply_cmd px (pyStrip line) t).1.distance_m :=
            ih (i + 1) (apply_cmd px (pyStrip line) t).1 hsub
        _ = t.distance_m := apply_cmd_distance px (pyStrip line) t hline

/-- A `service` call preserves `distance_m` as long as it dispatches no
`resetodo`. -/
theorem service_distance (px : Bool) (aok : Nat → Bool) (r : RecvResult)
    (st : ConnState) (t : Telem)
    (h : ∀ cmd, Ev.dispatched cmd ∈ (service px aok r st t).2.2 →
      pyLower (pyStrip cmd) ≠ cRESETODO) :
    (service px aok r st t).2.1.distance_m = t.distance_m := by
  match r with
  | RecvResult.wouldBlock => rfl
  | RecvResult.err => rfl
  | RecvResult.bytes bs =>
    by_cases hbs : bs.isEmpty
    · simp [service, hbs]
    · have hexp : (service px aok (RecvResult.bytes bs) st t).2.1 =
          (procLines px aok 0
            (splitNl (st.buf_in ++ replaceCRLF (decodeIgnore bs))).1 t).1 := by
        simp [service, hbs]
      rw [hexp]
      refine procLines_distance px aok _ 0 t (fun cmd hmem => h cmd ?_)
      simp [service, hbs]
      exact hmem

/-- The ready-descriptor phase of a heartbeat preserves `distance_m` (as
long as no `resetodo` is dispatched) and never touches
`_last_telem_time`. -/
theorem processReady_frame (px : Bool) (aok : Nat → Nat → Bool)
    (evs : List ReadyEv) : ∀ (j : Nat) (s : ServerState),
    (∀ cmd, Ev.dispatched cmd ∈ (processReady px aok j evs s).2 →
      pyLower (pyStrip cmd) ≠ cRESETODO) →
    (processReady px aok j evs s).1.glob.telem.distance_m =
      s.glob.telem.distance_m ∧
    (processReady px aok j evs s).1.glob.last_telem_time =
      s.glob.last_telem_time := by
  induction evs with
  | nil => intro j s _; exact ⟨rfl, rfl⟩
  | cons e rest ih =>
    intro j s h
    match e with
    | ReadyEv.accept =>
      rw [show processReady px aok j (ReadyEv.accept :: rest) s
            = processReady px aok (j + 1) rest
                {s with conns := s.conns ++ [ConnState.init]} from rfl] at h ⊢
      exact ih (j + 1) _ h
    | ReadyEv.readable i r =>
      match hg : s.conns[i]? with
      | none =>
        rw [show processReady px aok j (ReadyEv.readable i r :: rest) s
              = processReady px aok (j + 1) rest s from by
            simp [processReady, hg]] at h ⊢
        exact ih (j + 1) s h
      | some c =>
        have hexp : processReady px aok j (ReadyEv.readable i r :: rest) s =
            ((processReady px aok (j + 1) rest
               { conns := s.conns.set i (service px (aok j) r c s.glob.telem).1,
                 glob := {s.glob with
                   telem := (service px (aok j) r c s.glob.telem).2.1} }).1,
             (service px (aok j) r c s.glob.telem).2.2 ++
               (processReady px aok (j + 1) rest
                 { conns := s.conns.set i (service px (aok j) r c s.glob.telem).1,
                   glob := {s.glob with
                     telem := (service px (aok j) r c s.glob.telem).2.1} }).2) := by
          simp [processReady, hg]
        rw [hexp] at h ⊢
        have hsvc : (service px (aok j) r c s.glob.telem).2.1.distance_m =
            s.glob.telem.distance_m :=
          service_distance px (aok j) r c s.glob.telem
            (fun cmd hmem => h cmd (by simp [hmem]))
        obtain ⟨hd, ht⟩ := ih (j + 1)
          { conns := s.conns.set i (service px (aok j) r c s.glob.telem).1,
            glob := {s.glob with
              telem := (service px (aok j) r c s.glob.telem).2.1} }
          (fun cmd hmem => h cmd (by simp [hmem]))
        exact ⟨hd.trans hsvc, ht⟩

/-- When no registered connection is due a push, the push phase is a
complete no-op. -/
theorem pushPhase_skip (px : Bool) (hz now temp : ℚ) (sendOk : Nat → Bool)
    (conns : List ConnState) : ∀ (i : Nat) (g : Glob),
    (∀ c ∈ conns, c.closed = false → now - c.last_push < 1 / hz) →
    pushPhase px hz now temp sendOk i conns g = (conns, g, []) := by
  induction conns with
  | nil => intro i g _; rfl
  | cons c rest ih =>
    intro i g h
    rcases hc : c.closed with _ | _
    · have hlt : now - c.last_push < 1 / hz := h c (by simp) hc
      have hnot : ¬(hz⁻¹ ≤ now - c.last_push) := by
        rw [← one_div]; exact not_le.mpr hlt
      simp [pushPhase, hc, push_telem_if_due, hnot,
        ih (i + 1) g (fun d hd => h d (by simp [hd]))]
    · simp [pushPhase, hc, ih (i + 1) g (fun d hd => h d (by simp [hd]))]

/-- `C9`: in a heartbeat iteration in which no registered connection is
due a telemetry push (so `telemetry_tick` is never reached) and whose
reads dispatch no odometer reset, both the accumulated distance and the
last-sample timestamp are unchanged, whatever the current speed — in
particular this holds vacuously with zero connected clients. -/
theorem distanceOnlyMovedByTelemetrySerialization (px : Bool)
    (aok : Nat → Nat → Bool) (sendOk : Nat → Bool) (hz now temp : ℚ)
    (revs : List ReadyEv) (s : ServerState)
    (hnodue : ∀ c ∈ (processReady px aok 0 revs s).1.conns,
      c.closed = false → now - c.last_push < 1 / hz)
    (hnoreset : ∀ cmd,
      Ev.dispatched cmd ∈ (heartbeatIter px aok sendOk hz now temp revs s).2 →
      pyLower (pyStrip cmd) ≠ cRESETODO) :
    (heartbeatIter px aok sendOk hz now temp revs s).1.glob.telem.distance_m =
      s.glob.telem.distance_m ∧
    (heartbeatIter px aok sendOk hz now temp revs s).1.glob.last_telem_time =
      s.glob.last_telem_time := by
  have hpush := pushPhase_skip px hz now temp sendOk
    (processReady px aok 0 revs s).1.conns 0 (processReady px aok 0 revs s).1.glob
    hnodue
  have hhb : heartbeatIter px aok sendOk hz now temp revs s =
      (⟨(processReady px aok 0 revs s).1.conns,
        (processReady px aok 0 revs s).1.glob⟩,
       (processReady px aok 0 revs s).2 ++ []) := by
    simp [heartbeatIter, hpush]
  have hready := processReady_frame px aok revs 0 s (fun cmd hmem =>
    hnoreset cmd (by rw [hhb]; simpa using hmem))
  rw [hhb]
  exact hready

/-- `C9` witness: zero clients, speed 0.55 m/s, five metres on the
odometer: a heartbeat leaves both the distance and the sample timestamp
alone. -/
theorem distanceOnlyMovedWitness :
    (heartbeatIter true (fun _ _ => true) (fun _ => true) 3 1000 0 []
        ⟨[], t5, 7⟩).1.glob.telem.distance_m = 5 ∧
    (heartbeatIter true (fun _ _ => true) (fun _ => true) 3 1000 0 []
        ⟨[], t5, 7⟩).1.glob.last_telem_time = 7 := by
  obtain ⟨h1, h2⟩ := distanceOnlyMovedByTelemetrySerialization true
    (fun _ _ => true) (fun _ => true) 3 1000 0 [] ⟨[], t5, 7⟩
    (by intro c hc; simp [processReady] at hc)
    (by intro cmd hmem; simp [heartbeatIter, processReady, pushPhase] at hmem)
  exact ⟨h1.trans rfl, h2.trans rfl⟩

/-- The remainder left by line extraction contains no newline. -/
theorem splitNl_no_nl (buf : List Char) : '\n' ∉ (splitNl buf).2 := by
  induction buf with
  | nil => simp [splitNl]
  | cons c rest ih =>
    by_cases hc : c = '\n'
    · simpa [splitNl, hc] using ih
    · rcases hs : splitNl rest with ⟨ls, rem⟩
      rw [hs] at ih
      cases ls with
      | nil => simp [splitNl, hc, hs]; exact ⟨fun h => hc h.symm, ih⟩
      | cons l ls2 => simpa [splitNl, hc, hs] using ih

/-- A newline-free buffer yields no complete line. -/
theorem splitNl_of_no_nl (z : List Char) (h : '\n' ∉ z) :
    splitNl z = ([], z) := by
  induction z with
  | nil => rfl
  | cons c rest ih =>
    have hc : ¬c = '\n' := fun hh => h (by simp [hh])
    have hrest : '\n' ∉ rest := fun hh => h (by simp [hh])
    simp [splitNl, hc, ih hrest]

/-- How line extraction composes across an append: the complete lines of
`x` come first, and `x`'s unterminated remainder is prepended to `y`. -/
theorem splitNl_append (x y : List Char) :
    splitNl (x ++ y) =
      ((splitNl x).1 ++ (splitNl ((splitNl x).2 ++ y)).1,
       (splitNl ((splitNl x).2 ++ y)).2) := by
  induction x with
  | nil => simp [splitNl]
  | cons c x2 ih =>
    by_cases hc : c = '\n'
    · simp [splitNl, hc, ih]
    · rcases hs : splitNl x2 with ⟨ls, rem⟩
      rw [hs] at ih
      cases ls with
      | nil =>
        rcases ht : splitNl (rem ++ y) with ⟨ls2, rem2⟩
        cases ls2 <;> simp_all [splitNl, hc, hs, ht]
      | cons l ls2 =>
        simp_all [splitNl, hc, hs]

/-- Extracting from `z ++ "\n" ++ b` when `z` is newline-free: `z` is the
first complete line. -/
theorem splitNl_line (z b : List Char) (h : '\n' ∉ z) :
    splitNl (z ++ '\n' :: b) = (z :: (splitNl b).1, (splitNl b).2) := by
  induction z with
  | nil => simp [splitNl]
  | cons c z2 ih =>
    have hc : ¬c = '\n' := fun hh => h (by simp [hh])
    have hz : '\n' ∉ z2 := fun hh => h (by simp [hh])
    simp [splitNl, hc, ih hz]

/-- Stripping ignores a trailing carriage return. -/
theorem pyStrip_append_cr (z : List Char) :
    pyStrip (z ++ ['\r']) = pyStrip z := by
  simp [pyStrip, pyRstrip, List.reverse_append,
    List.dropWhile_cons_of_pos (show pyIsSpace '\r' = true from rfl)]

/-- The extracted commands of an append: those of `x`, then those of the
remainder-of-`x` glued onto `y`. -/
theorem cmdsOf_append (x y : List Char) :
    cmdsOf (x ++ y) = cmdsOf x ++ cmdsOf ((splitNl x).2 ++ y) := by
  simp [cmdsOf, splitNl_append x y]

/-- Deleting a carriage return that immediately precedes a newline does
not change the extracted command sequence (the `\r` would sit at the end
of its line and be stripped anyway). -/
theorem cmdsOf_crlf (a b : List Char) :
    cmdsOf (a ++ '\r' :: '\n' :: b) = cmdsOf (a ++ '\n' :: b) := by
  rw [cmdsOf_append a ('\r' :: '\n' :: b), cmdsOf_append a ('\n' :: b)]
  have hno : '\n' ∉ (splitNl a).2 := splitNl_no_nl a
  have hno2 : '\n' ∉ (splitNl a).2 ++ ['\r'] := by
    simp [List.mem_append, hno]
  congr 1
  rw [show (splitNl a).2 ++ '\r' :: '\n' :: b =
        ((splitNl a).2 ++ ['\r']) ++ '\n' :: b from by simp]
  unfold cmdsOf
  rw [splitNl_line _ b hno2, splitNl_line _ b hno]
  simp [pyStrip_append_cr]

/-- CR-LF normalization of any infix does not change the extracted
command sequence. -/
theorem cmdsOf_replaceCRLF (v : List Char) :
    ∀ u w, cmdsOf (u ++ (replaceCRLF v ++ w)) = cmdsOf (u ++ (v ++ w)):= by
  have H : ∀ (n : Nat) (v : List Char), v.length ≤ n →
      ∀ u w, cmdsOf (u ++ (replaceCRLF v ++ w)) = cmdsOf (u ++ (v ++ w)) := by
    intro n
    induction n with
    | zero =>
      intro v hv u w
      rw [List.length_eq_zero.mp (Nat.le_zero.mp hv)]
      rfl
    | succ n ihn =>
      intro v hv u w
      match v with
      | [] => rfl
      | [c] => rfl
      | c₁ :: c₂ :: rest =>
        simp only [List.length_cons] at hv
        have hr : rest.length ≤ n := by omega
        have hr2 : (c₂ :: rest).length ≤ n := by simp; omega
        by_cases hc : c₁ = '\r' ∧ c₂ = '\n'
        · obtain ⟨e₁, e₂⟩ := hc
          subst e₁; subst e₂
          rw [show replaceCRLF ('\r' :: '\n' :: rest) = '\n' :: replaceCRLF rest
                from by simp [replaceCRLF]]
          rw [show u ++ ('\n' :: replaceCRLF rest ++ w)
                = (u ++ ['\n']) ++ (replaceCRLF rest ++ w) from by simp]
          rw [ihn rest hr (u ++ ['\n']) w]
          rw [show (u ++ ['\n']) ++ (rest ++ w) = u ++ '\n' :: (rest ++ w)
                from by simp]
          rw [show u ++ ('\r' :: '\n' :: rest ++ w)
                = u ++ '\r' :: '\n' :: (rest ++ w) from by simp]
          exact (cmdsOf_crlf u (rest ++ w)).symm
        · rw [show replaceCRLF (c₁ :: c₂ :: rest)
                = c₁ :: replaceCRLF (c₂ :: rest) from by simp [replaceCRLF, hc]]
          rw [show u ++ (c₁ :: replaceCRLF (c₂ :: rest) ++ w)
                = (u ++ [c₁]) ++ (replaceCRLF (c₂ :: rest) ++ w) from by simp]
          rw [ihn (c₂ :: rest) hr2 (u ++ [c₁]) w]
          simp
  exact H v.length v le_rfl

/-- Applying CR-LF normalization chunk-by-chunk instead of not at all
does not change the extracted command sequence. -/
theorem cmdsOf_join_replaceCRLF (xs : List (List Char)) :
    ∀ u, cmdsOf (u ++ (xs.map replaceCRLF).flatten) = cmdsOf (u ++ xs.flatten) := by
  induction xs with
  | nil => intro u; rfl
  | cons x xs2 ih =>
    intro u
    rw [show (List.map replaceCRLF (x :: xs2)).flatten
          = replaceCRLF x ++ (List.map replaceCRLF xs2).flatten from by simp]
    rw [cmdsOf_replaceCRLF x u ((List.map replaceCRLF xs2).flatten)]
    rw [show u ++ (x ++ (List.map replaceCRLF xs2).flatten)
          = (u ++ x) ++ (List.map replaceCRLF xs2).flatten from by simp]
    rw [ih (u ++ x)]
    simp

/-- Prepending a non-dispatch event leaves the dispatched commands. -/
theorem dispatchedOf_cons_other (e : Ev) (h : ∀ c, e ≠ Ev.dispatched c)
    (l : List Ev) : dispatchedOf (e :: l) = dispatchedOf l := by
  cases e <;> first
    | exact absurd rfl (h _)
    | simp [dispatchedOf]

/-- Prepending a dispatch event prepends its command. -/
theorem dispatchedOf_cons_dispatched (c : List Char) (l : List Ev) :
    dispatchedOf (Ev.dispatched c :: l) = c :: dispatchedOf l := by
  simp [dispatchedOf]

/-- Dispatched commands of a concatenated trace. -/
theorem dispatchedOf_append (a b : List Ev) :
    dispatchedOf (a ++ b) = dispatchedOf a ++ dispatchedOf b :=
  List.filterMap_append a b _

/-- A trace with no dispatch events dispatches nothing. -/
theorem dispatchedOf_eq_nil (l : List Ev)
    (h : ∀ e ∈ l, ∀ c, e ≠ Ev.dispatched c) : dispatchedOf l = [] := by
  induction l with
  | nil => rfl
  | cons e rest ih =>
    rw [dispatchedOf_cons_other e (h e (by simp)) rest]
    exact ih fun d hd => h d (by simp [hd])

/-- No event of a hardware-call block is a dispatch. -/
theorem dispatchedOf_hw (l : List HwCall) : dispatchedOf (l.map Ev.hw) = [] := by
  refine dispatchedOf_eq_nil _ fun e he c => ?_
  obtain ⟨x, -, rfl⟩ := List.mem_map.mp he
  simp

/-- No event of a diagnostics block is a dispatch. -/
theorem dispatchedOf_warn (l : List Diag) : dispatchedOf (l.map Ev.warn) = [] := by
  refine dispatchedOf_eq_nil _ fun e he c => ?_
  obtain ⟨x, -, rfl⟩ := List.mem_map.mp he
  simp

/-- The drain loop dispatches exactly the stripped non-blank lines, in
order, independent of the ACK oracle and of the telemetry state. -/
theorem procLines_dispatched (px : Bool) (aok : Nat → Bool)
    (ls : List (List Char)) : ∀ (i : Nat) (t : Telem),
    dispatchedOf (procLines px aok i ls t).2 =
      (ls.map pyStrip).filter (fun c => !c.isEmpty) := by
  induction ls with
  | nil => intro i t; rfl
  | cons line rest ih =>
    intro i t
    by_cases hemp : (pyStrip line).isEmpty
    · simp [procLines, hemp, ih]
    · have hexp : (procLines px aok i (line :: rest) t).2 =
          (if aok i then Ev.ackSent (pyStrip line) else Ev.ackErr (pyStrip line)) ::
            Ev.dispatched (pyStrip line) ::
            ((apply_cmd px (pyStrip line) t).2.1.map Ev.hw ++
             (apply_cmd px (pyStrip line) t).2.2.map Ev.warn ++
             (procLines px aok (i + 1) rest (apply_cmd px (pyStrip line) t).1).2) := by
        simp [procLines, hemp]
      rw [hexp]
      rw [dispatchedOf_cons_other _ (by rcases aok i <;> simp) _]
      rw [dispatchedOf_cons_dispatched]
      rw [show (apply_cmd px (pyStrip line) t).2.1.map Ev.hw ++
            (apply_cmd px (pyStrip line) t).2.2.map Ev.warn ++
            (procLines px aok (i + 1) rest (apply_cmd px (pyStrip line) t).1).2
          = ((apply_cmd px (pyStrip line) t).2.1.map Ev.hw ++
             (apply_cmd px (pyStrip line) t).2.2.map Ev.warn) ++
            (procLines px aok (i + 1) rest (apply_cmd px (pyStrip line) t).1).2
          from by simp]
      rw [dispatchedOf_append, dispatchedOf_append, dispatchedOf_hw,
        dispatchedOf_warn, ih (i + 1) (apply_cmd px (pyStrip line) t).1]
      simp [hemp]

/-- The read handler on a non-empty chunk: buffer update and trace,
spelled out. -/
theorem service_bytes_spec (px : Bool) (aok : Nat → Bool) (bs : List Nat)
    (st : ConnState) (t : Telem) (hbs : bs.isEmpty = false) :
    service px aok (RecvResult.bytes bs) st t =
      ({st with buf_in :=
          (splitNl (st.buf_in ++ replaceCRLF (decodeIgnore bs))).2},
       (procLines px aok 0
          (splitNl (st.buf_in ++ replaceCRLF (decodeIgnore bs))).1 t).1,
       (procLines px aok 0
          (splitNl (st.buf_in ++ replaceCRLF (decodeIgnore bs))).1 t).2) := by
  simp [service, hbs]

/-- One read dispatches exactly the commands completed by the buffer plus
the normalized decoded chunk. -/
theorem service_dispatched (px : Bool) (aok : Nat → Bool) (bs : List Nat)
    (st : ConnState) (t : Telem) (hbs : bs.isEmpty = false) :
    dispatchedOf (service px aok (RecvResult.bytes bs) st t).2.2 =
      cmdsOf (st.buf_in ++ replaceCRLF (decodeIgnore bs)) := by
  rw [service_bytes_spec px aok bs st t hbs]
  exact procLines_dispatched px aok _ 0 t

/-- Feeding chunks one at a time dispatches exactly the commands of the
concatenation of the per-chunk-normalized decoded chunks. -/
theorem serviceChunks_dispatched (cs : List (List Nat)) :
    ∀ (px : Bool) (aok : Nat → Nat → Bool) (st : ConnState) (t : Telem),
    (∀ c ∈ cs, c ≠ []) → '\n' ∉ st.buf_in →
    dispatchedOf (serviceChunks px aok cs st t).2.2 =
      cmdsOf (st.buf_in ++
        (cs.map (fun c => replaceCRLF (decodeIgnore c))).flatten) := by
  induction cs with
  | nil =>
    intro px aok st t _ hno
    simp [serviceChunks, cmdsOf, dispatchedOf, splitNl_of_no_nl _ hno]
  | cons c cs2 ih =>
    intro px aok st t hne hno
    have hc : c ≠ [] := hne c (by simp)
    have hbs : c.isEmpty = false := by
      cases c with
      | nil => exact absurd rfl hc
      | cons b bs2 => rfl
    have hstep := service_bytes_spec px (aok 0) c st t hbs
    have hnorem : '\n' ∉
        (splitNl (st.buf_in ++ replaceCRLF (decodeIgnore c))).2 :=
      splitNl_no_nl _
    rw [show serviceChunks px aok (c :: cs2) st t
          = ((serviceChunks px (fun j => aok (j + 1)) cs2
               (service px (aok 0) (RecvResult.bytes c) st t).1
               (service px (aok 0) (RecvResult.bytes c) st t).2.1).1,
             (serviceChunks px (fun j => aok (j + 1)) cs2
               (service px (aok 0) (RecvResult.bytes c) st t).1
               (service px (aok 0) (RecvResult.bytes c) st t).2.1).2.1,
             (service px (aok 0) (RecvResult.bytes c) st t).2.2 ++
               (serviceChunks px (fun j => aok (j + 1)) cs2
                 (service px (aok 0) (RecvResult.bytes c) st t).1
                 (service px (aok 0) (RecvResult.bytes c) st t).2.1).2.2)
          from rfl]
    rw [dispatchedOf_append]
    rw [service_dispatched px (aok 0) c st t hbs]
    rw [ih px (fun j => aok (j + 1)) _ _ (fun d hd => hne d (by simp [hd]))
      (by rw [hstep]; exact hnorem)]
    have hbuf : (service px (aok 0) (RecvResult.bytes c) st t).1.buf_in =
        (splitNl (st.buf_in ++ replaceCRLF (decodeIgnore c))).2 := by
      rw [hstep]
    rw [hbuf]
    rw [show (List.map (fun c => replaceCRLF (decodeIgnore c)) (c :: cs2)).flatten
          = replaceCRLF (decodeIgnore c) ++
            (List.map (fun c => replaceCRLF (decodeIgnore c)) cs2).flatten
          from by simp]
    rw [show st.buf_in ++
          (replaceCRLF (decodeIgnore c) ++
            (List.map (fun c => replaceCRLF (decodeIgnore c)) cs2).flatten)
          = (st.buf_in ++ replaceCRLF (decodeIgnore c)) ++
            (List.map (fun c => replaceCRLF (decodeIgnore c)) cs2).flatten
          from by simp]
    exact (cmdsOf_append (st.buf_in ++ replaceCRLF (decodeIgnore c)) _).symm

/-- `C2` counterexample: the byte stream `"forwardé\n"` split between the
two bytes of `é` dispatches `["forward"]` (each half of the split
character is dropped by the per-chunk `errors="ignore"` decode), while the
single read of the same bytes dispatches `["forwardé"]`: the dispatched
command sequences differ, and here even the resulting actuator behavior
differs (recognized vs unknown token). -/
theorem splitInsideUtf8CharChangesCommands :
    dispatchedOf (serviceChunks true (fun _ _ => true) exSplit
        ConnState.init t5).2.2 ≠
    dispatchedOf (service true (fun _ => true) (RecvResult.bytes exBytes)
        ConnState.init t5).2.2 := by
  decide

/-- `C2` (amended): for every byte stream and every split into non-empty
read chunks that does not alter the UTF-8 `errors="ignore"` decode (in
particular any split at character boundaries, e.g. anywhere in an ASCII
stream — a split inside a multi-byte character can change the decoded
text and hence the commands), feeding the chunks one at a time dispatches
exactly the same command sequence as one single read of the concatenated
bytes, for any ACK oracles and any starting telemetry; this includes a
CR-LF pair split across two reads. -/
theorem framingReadBoundaryIndependent (px : Bool) (aok : Nat → Nat → Bool)
    (aokS : Nat → Bool) (bs : List (List Nat)) (t t₂ : Telem)
    (hall : ∀ c ∈ bs, c ≠ [])
    (hdec : (bs.map decodeIgnore).flatten = decodeIgnore bs.flatten) :
    dispatchedOf (serviceChunks px aok bs ConnState.init t).2.2 =
      dispatchedOf (service px aokS (RecvResult.bytes bs.flatten)
        ConnState.init t₂).2.2 := by
  by_cases hne : bs.flatten = []
  · have hallnil : ∀ c ∈ bs, c = [] := by
      intro c hc
      cases hcc : c with
      | nil => rfl
      | cons b r =>
        exact absurd (hne ▸ List.mem_flatten_of_mem hc (by simp [hcc]))
          (List.not_mem_nil b)
    have hbsnil : bs = [] := by
      cases bs with
      | nil => rfl
      | cons c rest => exact absurd (hallnil c (by simp)) (hall c (by simp))
    subst hbsnil
    simp [serviceChunks, service, dispatchedOf]
  · have hbs : bs.flatten.isEmpty = false := by
      cases h : bs.flatten with
      | nil => exact absurd h hne
      | cons b r => rfl
    rw [serviceChunks_dispatched bs px aok ConnState.init t hall
      (by simp [ConnState.init])]
    rw [service_dispatched px aokS bs.flatten ConnState.init t₂ hbs]
    show cmdsOf ([] ++ (bs.map (fun c => replaceCRLF (decodeIgnore c))).flatten)
        = cmdsOf ([] ++ replaceCRLF (decodeIgnore bs.flatten))
    rw [show bs.map (fun c => replaceCRLF (decodeIgnore c))
          = (bs.map decodeIgnore).map replaceCRLF from by
        rw [List.map_map]; rfl]
    rw [cmdsOf_join_replaceCRLF (bs.map decodeIgnore) []]
    rw [hdec]
    have := cmdsOf_replaceCRLF (decodeIgnore bs.flatten) [] []
    simpa using this.symm

/-- `C2` witness: the stream `"stop\r\nforward\n"` split into three ASCII
chunks with the CR-LF pair split across the second and third read
dispatches the same two commands as the single read. -/
theorem framingReadBoundaryIndependentWitness :
    dispatchedOf (serviceChunks true (fun _ _ => true)
        [[115, 116, 111], [112, 13], [10, 102, 111, 114, 119, 97, 114, 100, 10]]
        ConnState.init t5).2.2 =
      dispatchedOf (service true (fun _ => true)
        (RecvResult.bytes
          [[115, 116, 111], [112, 13],
           [10, 102, 111, 114, 119, 97, 114, 100, 10]].flatten)
        ConnState.init t5).2.2 :=
  framingReadBoundaryIndependent true (fun _ _ => true) (fun _ => true)
    [[115, 116, 111], [112, 13], [10, 102, 111, 114, 119, 97, 114, 100, 10]]
    t5 t5 (by decide) (by decide)

/-- In the drain loop's trace, every dispatch is preceded by the ACK
write attempt for the same command (a successful `ackSent` or the logged
`ackErr`). -/
theorem procLines_ackBefore (px : Bool) (aok : Nat → Bool)
    (ls : List (List Char)) : ∀ (i : Nat) (t : Telem) (k : Nat) (c : List Char),
    ((procLines px aok i ls t).2)[k]? = some (Ev.dispatched c) →
    ∃ j, j < k ∧
      (((procLines px aok i ls t).2)[j]? = some (Ev.ackSent c) ∨
       ((procLines px aok i ls t).2)[j]? = some (Ev.ackErr c)) := by
  induction ls with
  | nil => intro i t k c h; simp [procLines] at h
  | cons line rest ih =>
    intro i t k c h
    by_cases hemp : (pyStrip line).isEmpty
    · rw [show procLines px aok i (line :: rest) t
            = procLines px aok i rest t from by simp [procLines, hemp]] at h ⊢
      exact ih i t k c h
    · have hexp : (procLines px aok i (line :: rest) t).2 =
          (if aok i then Ev.ackSent (pyStrip line) else Ev.ackErr (pyStrip line)) ::
            Ev.dispatched (pyStrip line) ::
            ((apply_cmd px (pyStrip line) t).2.1.map Ev.hw ++
             (apply_cmd px (pyStrip line) t).2.2.map Ev.warn ++
             (procLines px aok (i + 1) rest (apply_cmd px (pyStrip line) t).1).2) := by
        simp [procLines, hemp]
      rw [hexp] at h ⊢
      have hassoc : (apply_cmd px (pyStrip line) t).2.1.map Ev.hw ++
          (apply_cmd px (pyStrip line) t).2.2.map Ev.warn ++
          (procLines px aok (i + 1) rest (apply_cmd px (pyStrip line) t).1).2
          = ((apply_cmd px (pyStrip line) t).2.1.map Ev.hw ++
             (apply_cmd px (pyStrip line) t).2.2.map Ev.warn) ++
            (procLines px aok (i + 1) rest (apply_cmd px (pyStrip line) t).1).2 := by
        simp
      rw [hassoc] at h ⊢
      have hMnd : ∀ e ∈ (apply_cmd px (pyStrip line) t).2.1.map Ev.hw ++
          (apply_cmd px (pyStrip line) t).2.2.map Ev.warn,
          ∀ c', e ≠ Ev.dispatched c' := by
        intro e he c'
        rcases List.mem_append.mp he with h1 | h1 <;>
          · obtain ⟨x, -, rfl⟩ := List.mem_map.mp h1
            simp
      match k with
      | 0 =>
        rcases haok : aok i with _ | _ <;> simp [haok] at h
      | 1 =>
        have hc : pyStrip line = c := by simpa using h
        refine ⟨0, by omega, ?_⟩
        rcases haok : aok i with _ | _
        · right; simp [haok, hc]
        · left; simp [haok, hc]
      | (k2 + 2) =>
        rw [List.getElem?_cons_succ, List.getElem?_cons_succ] at h
        by_cases hk : k2 < ((apply_cmd px (pyStrip line) t).2.1.map Ev.hw ++
            (apply_cmd px (pyStrip line) t).2.2.map Ev.warn).length
        · rw [List.getElem?_append_left hk] at h
          exact absurd rfl (hMnd _ (List.getElem?_mem h) c)
        · push_neg at hk
          rw [List.getElem?_append_right hk] at h
          obtain ⟨j2, hj2, hack⟩ := ih (i + 1) (apply_cmd px (pyStrip line) t).1 _ c h
          refine ⟨j2 + ((apply_cmd px (pyStrip line) t).2.1.map Ev.hw ++
            (apply_cmd px (pyStrip line) t).2.2.map Ev.warn).length + 2,
            by omega, ?_⟩
          have hidx : ∀ (e₁ e₂ : Ev) (M tr : List Ev),
              (e₁ :: e₂ :: (M ++ tr))[j2 + M.length + 2]? = tr[j2]? := by
            intro e₁ e₂ M tr
            rw [show j2 + M.length + 2 = (j2 + M.length) + 1 + 1 from rfl]
            rw [List.getElem?_cons_succ, List.getElem?_cons_succ]
            rw [List.getElem?_append_right (by omega)]
            congr 1
            omega
          rw [hidx]
          exact hack

/-- `C6`: in the trace of a read pass, every dispatched command is
preceded by the ACK write for that same command text — either the
successful write or, when the write fails, the logged diagnostic — and
the dispatched command sequence is identical whatever the ACK oracle:
an ACK write failure never aborts dispatch. -/
theorem ackWrittenBeforeDispatch (px : Bool) (aok aok₂ : Nat → Bool)
    (r : RecvResult) (st : ConnState) (t : Telem) :
    (∀ (k : Nat) (c : List Char),
      ((service px aok r st t).2.2)[k]? = some (Ev.dispatched c) →
      ∃ j, j < k ∧
        (((service px aok r st t).2.2)[j]? = some (Ev.ackSent c) ∨
         ((service px aok r st t).2.2)[j]? = some (Ev.ackErr c))) ∧
    dispatchedOf (service px aok r st t).2.2 =
      dispatchedOf (service px aok₂ r st t).2.2 := by
  have hclose : ∀ e ∈ Ev.connClosed :: (close_conn px st).2.map Ev.hw,
      ∀ c, e ≠ Ev.dispatched c := by
    intro e he c
    rcases List.mem_cons.mp he with h1 | h1
    · simp [h1]
    · obtain ⟨x, -, rfl⟩ := List.mem_map.mp h1
      simp
  constructor
  · intro k c h
    cases r with
    | wouldBlock => simp [service] at h
    | err =>
      rw [show (service px aok RecvResult.err st t).2.2
            = Ev.connClosed :: (close_conn px st).2.map Ev.hw from rfl] at h
      exact absurd rfl (hclose _ (List.getElem?_mem h) c)
    | bytes bs =>
      by_cases hbs : bs.isEmpty = true
      · rw [show (service px aok (RecvResult.bytes bs) st t).2.2
              = Ev.connClosed :: (close_conn px st).2.map Ev.hw from by
            simp [service, hbs]] at h
        exact absurd rfl (hclose _ (List.getElem?_mem h) c)
      · have hbs2 : bs.isEmpty = false := by simpa using hbs
        rw [service_bytes_spec px aok bs st t hbs2] at h ⊢
        exact procLines_ackBefore px aok _ 0 t k c h
  · cases r with
    | wouldBlock => rfl
    | err => rfl
    | bytes bs =>
      by_cases hbs : bs.isEmpty = true
      · simp [service, hbs]
      · have hbs2 : bs.isEmpty = false := by simpa using hbs
        rw [service_dispatched px aok bs st t hbs2,
          service_dispatched px aok₂ bs st t hbs2]

/-- `C6` witness: the client sends `"go\n"` and the ACK write fails; the
dispatch at position 1 is preceded by the logged ACK failure at position
0, and the dispatched commands agree with the run whose ACK write
succeeds. -/
theorem ackWrittenBeforeDispatchWitness :
    (∃ j, j < 1 ∧
      (((service true (fun _ => false) (RecvResult.bytes [103, 111, 10])
          ConnState.init t5).2.2)[j]? = some (Ev.ackSent (("go").toList)) ∨
       ((service true (fun _ => false) (RecvResult.bytes [103, 111, 10])
          ConnState.init t5).2.2)[j]? = some (Ev.ackErr (("go").toList)))) ∧
    dispatchedOf (service true (fun _ => false) (RecvResult.bytes [103, 111, 10])
        ConnState.init t5).2.2 =
      dispatchedOf (service true (fun _ => true) (RecvResult.bytes [103, 111, 10])
        ConnState.init t5).2.2 := by
  obtain ⟨h1, h2⟩ := ackWrittenBeforeDispatch true (fun _ => false)
    (fun _ => true) (RecvResult.bytes [103, 111, 10]) ConnState.init t5
  exact ⟨h1 1 (("go").toList) (by decide), h2⟩

end PicarX
